import Mathlib

/-!
Shallow embedding of the tone queue of libcw (file src/libcw/libcw_tq.c).

The tone queue is a bounded circular buffer of tones with head/tail
indexes, a length counter, an IDLE/BUSY state flag and a low-water-mark
callback.  The C structure's backing array is modelled as a `List CwTone`
whose length equals the queue's capacity; machine indexes (`size_t`) are
modelled as `Nat`, tone fields `frequency` and `len` (C `int`) as `Int`.
The low-water callback function pointer is modelled as `Option Nat`
(an opaque identity; `none` is the NULL pointer), its opaque argument
as a `Nat`.
-/

/-- Queue state flag: CW_TQ_IDLE / CW_TQ_BUSY (libcw_tq.c state graph). -/
inductive CwTqState where
  | idle
  | busy
  deriving DecidableEq, Repr

/-- The errno values the tone-queue code can set. -/
inductive CwErrno where
  | EINVAL
  | EAGAIN
  deriving DecidableEq, Repr

/-- Return value of `cw_tq_enqueue_internal`: CW_SUCCESS, or CW_FAILURE with errno. -/
inductive CwRet where
  | success
  | failure (e : CwErrno)
  deriving DecidableEq, Repr

/-- Return value of `cw_tq_dequeue_internal`. -/
inductive CwTqDeqRet where
  | dequeued
  | ndequeued_empty
  | ndequeued_idle
  deriving DecidableEq, Repr

/-- One queued tone (cw_tone_t): duration in microseconds, frequency in Hz,
"forever" flag, and the first-tone-of-a-character flag used by backspace. -/
structure CwTone where
  frequency : Int
  len : Int
  is_forever : Bool
  is_first : Bool
  deriving DecidableEq, Repr, Inhabited

/-- The tone queue structure (cw_tone_queue_t), without the pthread mutex and
the generator back-pointer, which carry no queue state. -/
structure CwToneQueue where
  queue : List CwTone
  head : Nat
  tail : Nat
  len : Nat
  capacity : Nat
  high_water_mark : Nat
  state : CwTqState
  low_water_mark : Nat
  low_water_callback : Option Nat
  low_water_callback_arg : Nat
  deriving DecidableEq, Repr

/-- CW_FREQUENCY_MIN from libcw2.h. -/
def CW_FREQUENCY_MIN : Int := 0

/-- CW_FREQUENCY_MAX from libcw2.h. -/
def CW_FREQUENCY_MAX : Int := 4000

/-- `cw_tq_next_index_internal`: next index in the circular buffer. -/
def cw_tq_next_index_internal (tq : CwToneQueue) (ind : Nat) : Nat :=
  if ind = tq.capacity - 1 then 0 else ind + 1

/-- `cw_tq_prev_index_internal`: previous index in the circular buffer. -/
def cw_tq_prev_index_internal (tq : CwToneQueue) (ind : Nat) : Nat :=
  if ind = 0 then tq.capacity - 1 else ind - 1

/-- `cw_tq_make_empty_internal`: reset head, tail, len and state. -/
def cw_tq_make_empty_internal (tq : CwToneQueue) : CwToneQueue :=
  { tq with head := 0, tail := 0, len := 0, state := CwTqState.idle }

/-- The queue as created by `cw_tq_new_internal` (head = tail = len = 0,
state IDLE, no low-water callback registered, low water mark 0), with a
backing store `backing` and a configured capacity. -/
def cw_tq_new_model (backing : List CwTone) (capacity : Nat) : CwToneQueue :=
  { queue := backing, head := 0, tail := 0, len := 0, capacity := capacity,
    high_water_mark := capacity, state := CwTqState.idle, low_water_mark := 0,
    low_water_callback := none, low_water_callback_arg := 0 }

/-- `cw_tq_enqueue_internal`: validate the tone, drop zero-length tones,
reject a full queue with EAGAIN, otherwise store the tone at `tail`,
advance `tail`, increment `len`, and wake the dequeue side (IDLE → BUSY).
Returns the C return value paired with the updated queue. -/
def cw_tq_enqueue_internal (tq : CwToneQueue) (tone : CwTone) : CwRet × CwToneQueue :=
  if tone.frequency < CW_FREQUENCY_MIN ∨ tone.frequency > CW_FREQUENCY_MAX then
    (CwRet.failure CwErrno.EINVAL, tq)
  else if tone.len < 0 then
    (CwRet.failure CwErrno.EINVAL, tq)
  else if tone.len = 0 then
    (CwRet.success, tq)
  else if tq.len = tq.capacity then
    (CwRet.failure CwErrno.EAGAIN, tq)
  else
    let tq1 : CwToneQueue := { tq with queue := tq.queue.set tq.tail tone }
    let tq2 : CwToneQueue :=
      { tq1 with tail := cw_tq_next_index_internal tq1 tq1.tail, len := tq1.len + 1 }
    let tq3 : CwToneQueue :=
      if tq2.state = CwTqState.idle then { tq2 with state := CwTqState.busy } else tq2
    (CwRet.success, tq3)

/-- `cw_tq_dequeue_sub_internal`: copy the head tone out; if it is a
"forever" tone and the last one in the queue, keep it (and never request
the low-water callback); otherwise advance `head`, decrement `len`, and
request the callback when one is registered and `len` crossed the low
water mark.  Returns (call_callback, dequeued tone, updated queue). -/
def cw_tq_dequeue_sub_internal (tq : CwToneQueue) : Bool × CwTone × CwToneQueue :=
  let tone := tq.queue.getD tq.head default
  if tone.is_forever = true ∧ tq.len = 1 then
    (false, tone, tq)
  else
    let tq_len_before := tq.len
    let tq2 : CwToneQueue :=
      { tq with head := cw_tq_next_index_internal tq tq.head, len := tq.len - 1 }
    let call_callback : Bool :=
      if tq2.low_water_callback.isSome = true
          ∧ tq_len_before > tq2.low_water_mark
          ∧ tq2.len ≤ tq2.low_water_mark then true else false
    (call_callback, tone, tq2)

/-- `cw_tq_dequeue_internal`: three-way return.  In the IDLE state nothing
changes; in the BUSY state a non-empty queue yields a tone through the out
parameter (`some tone`) together with the callback-pending flag, and an
empty queue transitions to IDLE.  Result: (return value, out tone,
callback invoked, updated queue). -/
def cw_tq_dequeue_internal (tq : CwToneQueue) :
    CwTqDeqRet × Option CwTone × Bool × CwToneQueue :=
  match tq.state with
  | CwTqState.idle => (CwTqDeqRet.ndequeued_idle, none, false, tq)
  | CwTqState.busy =>
    if tq.len ≠ 0 then
      let r := cw_tq_dequeue_sub_internal tq
      (CwTqDeqRet.dequeued, some r.2.1, r.1, r.2.2)
    else
      (CwTqDeqRet.ndequeued_empty, none, false, { tq with state := CwTqState.idle })

/-- `cw_tq_flush_internal`: empty and reset the queue (the subsequent
wait-for-drain performs no state change on the queue itself). -/
def cw_tq_flush_internal (tq : CwToneQueue) : CwToneQueue :=
  { tq with len := 0, head := tq.tail, state := CwTqState.idle }

/-- The backwards scan loop of `cw_tq_handle_backspace_internal`:
starting with `len` remaining tones and index `idx`, step to the previous
index and stop at the first tone with `is_first` set, returning the new
(len, idx) pair; `none` when no such tone is found. -/
def cw_tq_scan (tq : CwToneQueue) : Nat → Nat → Option (Nat × Nat)
  | 0, _ => none
  | Nat.succ n, idx =>
    let idx2 := cw_tq_prev_index_internal tq idx
    if (tq.queue.getD idx2 default).is_first = true then some (n, idx2)
    else cw_tq_scan tq n idx2

/-- `cw_tq_handle_backspace_internal`: scan backwards from `tail`; when a
tone with `is_first` is found, truncate the queue to just before it. -/
def cw_tq_handle_backspace_internal (tq : CwToneQueue) : CwToneQueue :=
  match cw_tq_scan tq tq.len tq.tail with
  | some li => { tq with len := li.1, tail := li.2 }
  | none => tq

/-- The window of `len` ring-buffer cells starting at `head`, as a list. -/
def ringList (q : List CwTone) (head len cap : Nat) : List CwTone :=
  (List.range len).map (fun i => q.getD ((head + i) % cap) default)

/-- Abstraction: the queued tones in dequeue order, head first. -/
def CwToneQueue.toList (tq : CwToneQueue) : List CwTone :=
  ringList tq.queue tq.head tq.len tq.capacity

/-- The representation invariant tying the circular buffer to its length
counter (established by `cw_tq_new_internal`, maintained by every
operation). -/
structure TqInv (tq : CwToneQueue) : Prop where
  cap_pos : 0 < tq.capacity
  store_len : tq.queue.length = tq.capacity
  len_le : tq.len ≤ tq.capacity
  head_lt : tq.head < tq.capacity
  tail_lt : tq.tail < tq.capacity
  tail_eq : tq.tail = (tq.head + tq.len) % tq.capacity
  idle_empty : tq.state = CwTqState.idle → tq.len = 0

/-- The weaker bounds invariant named by the spec's §8.1 (no linkage of
`len` to head/tail). -/
structure TqBounds (tq : CwToneQueue) : Prop where
  cap_pos : 0 < tq.capacity
  len_le : tq.len ≤ tq.capacity
  head_lt : tq.head < tq.capacity
  tail_lt : tq.tail < tq.capacity
  idle_empty : tq.state = CwTqState.idle → tq.len = 0

/-- States reachable from a freshly created queue by enqueue, dequeue,
flush and backspace calls. -/
inductive Reachable : CwToneQueue → Prop where
  | init (backing : List CwTone) (capacity : Nat) (hcap : 0 < capacity)
      (hlen : backing.length = capacity) :
      Reachable (cw_tq_new_model backing capacity)
  | enq (tq : CwToneQueue) (tone : CwTone) (h : Reachable tq) :
      Reachable (cw_tq_enqueue_internal tq tone).2
  | deq (tq : CwToneQueue) (h : Reachable tq) :
      Reachable (cw_tq_dequeue_internal tq).2.2.2
  | flush (tq : CwToneQueue) (h : Reachable tq) :
      Reachable (cw_tq_flush_internal tq)
  | backspace (tq : CwToneQueue) (h : Reachable tq) :
      Reachable (cw_tq_handle_backspace_internal tq)

/-- Spec-level FIFO from the spec's words (§4.B / §8.2), for the
refinement claim: enqueueing appends at the back of an abstract list. -/
def specEnqueue (q : List CwTone) (t : CwTone) : List CwTone := q ++ [t]

/-- Spec-level dequeue from the spec's words: the front tone is returned;
a forever tone that is the last remaining element is re-returned without
being removed; otherwise the front tone is removed.  `none` on the empty
list. -/
def specDequeue : List CwTone → Option (CwTone × List CwTone)
  | [] => none
  | t :: rest =>
    if t.is_forever = true ∧ rest = [] then some (t, t :: rest) else some (t, rest)

/- Concrete inputs used by witnesses and counterexamples. -/

/-- An ordinary valid tone. -/
def toneStd : CwTone := { frequency := 440, len := 100, is_forever := false, is_first := false }

/-- A second ordinary valid tone. -/
def toneSnd : CwTone := { frequency := 300, len := 50, is_forever := false, is_first := false }

/-- A zero-length tone whose `is_first` flag is set. -/
def toneZeroFirst : CwTone := { frequency := 440, len := 0, is_forever := false, is_first := true }

/-- A tone with out-of-range frequency. -/
def toneBadFreq : CwTone := { frequency := 5000, len := 100, is_forever := false, is_first := false }

/-- A tone with negative length. -/
def toneNegLen : CwTone := { frequency := 440, len := -5, is_forever := false, is_first := false }

/-- A forever tone. -/
def toneForever : CwTone := { frequency := 440, len := 100, is_forever := true, is_first := false }

/-- A fresh queue of capacity 2. -/
def tqEmpty2 : CwToneQueue := cw_tq_new_model [default, default] 2

/-- A BUSY queue of capacity 2 holding a single forever tone at its head. -/
def tqForever1 : CwToneQueue :=
  { queue := [toneForever, default], head := 0, tail := 1, len := 1, capacity := 2,
    high_water_mark := 2, state := CwTqState.busy, low_water_mark := 0, low_water_callback := none,
    low_water_callback_arg := 0 }

/-- A full queue of capacity 1. -/
def tqFull1 : CwToneQueue :=
  { queue := [toneStd], head := 0, tail := 0, len := 1, capacity := 1,
    high_water_mark := 1, state := CwTqState.busy, low_water_mark := 0, low_water_callback := none,
    low_water_callback_arg := 0 }

/-- A BUSY queue of capacity 2 holding two tones, with a registered
low-water callback and low water mark 1. -/
def tqCallback2 : CwToneQueue :=
  { queue := [toneStd, toneSnd], head := 0, tail := 0, len := 2, capacity := 2,
    high_water_mark := 2, state := CwTqState.busy, low_water_mark := 1, low_water_callback := some 0,
    low_water_callback_arg := 7 }

/-- A BUSY queue of capacity 4 holding two whole characters of two tones
each (`is_first` set at indexes 0 and 2). -/
def tqTwoChars : CwToneQueue :=
  { queue := [{ toneStd with is_first := true }, toneStd,
              { toneSnd with is_first := true }, toneSnd],
    head := 0, tail := 0, len := 4, capacity := 4,
    high_water_mark := 4, state := CwTqState.busy, low_water_mark := 0, low_water_callback := none,
    low_water_callback_arg := 0 }

section Sanity

/-- A small concrete queue for sanity checks while developing. -/
def tqSan : CwToneQueue :=
  cw_tq_new_model [default, default, default] 3

example :
    (cw_tq_enqueue_internal tqSan
      { frequency := 440, len := 100, is_forever := false, is_first := true }).1 =
      CwRet.success := by decide

example :
    (cw_tq_enqueue_internal tqSan
      { frequency := 5000, len := 100, is_forever := false, is_first := true }).1 =
      CwRet.failure CwErrno.EINVAL := by decide

example :
    (cw_tq_enqueue_internal tqSan
      { frequency := 440, len := 0, is_forever := false, is_first := true }) =
      (CwRet.success, tqSan) := by decide

example : (cw_tq_dequeue_internal tqSan).1 = CwTqDeqRet.ndequeued_idle := by decide

end Sanity

/-! ## Helper lemmas about indexes and the list abstraction -/

lemma next_index_eq_mod (tq : CwToneQueue) (ind : Nat) (h : ind < tq.capacity) :
    cw_tq_next_index_internal tq ind = (ind + 1) % tq.capacity := by
  unfold cw_tq_next_index_internal
  split
  · have h1 : ind + 1 = tq.capacity := by omega
    rw [h1, Nat.mod_self]
  · have : ind + 1 < tq.capacity := by omega
    exact (Nat.mod_eq_of_lt this).symm

lemma prev_index_lt (tq : CwToneQueue) (ind : Nat) (hcap : 0 < tq.capacity)
    (h : ind < tq.capacity) : cw_tq_prev_index_internal tq ind < tq.capacity := by
  unfold cw_tq_prev_index_internal
  split <;> omega

lemma prev_index_succ_mod (tq : CwToneQueue) (x : Nat) (hcap : 0 < tq.capacity) :
    cw_tq_prev_index_internal tq ((x + 1) % tq.capacity) = x % tq.capacity := by
  have hy : x % tq.capacity < tq.capacity := Nat.mod_lt x hcap
  have h1 : (x + 1) % tq.capacity = (x % tq.capacity + 1) % tq.capacity :=
    (Nat.mod_add_mod x tq.capacity 1).symm
  rcases Nat.lt_or_ge (x % tq.capacity + 1) tq.capacity with hlt | hge
  · rw [h1, Nat.mod_eq_of_lt hlt]
    unfold cw_tq_prev_index_internal
    split
    · omega
    · omega
  · have h2 : x % tq.capacity + 1 = tq.capacity := by omega
    rw [h1, h2, Nat.mod_self]
    unfold cw_tq_prev_index_internal
    rw [if_pos rfl]
    omega

lemma add_mod_inj {n h a b : Nat} (ha : a < n) (hb : b < n)
    (heq : (h + a) % n = (h + b) % n) : a = b := by
  have hmod : a ≡ b [MOD n] := Nat.ModEq.add_left_cancel' h heq
  have h2 : a % n = b % n := hmod
  rwa [Nat.mod_eq_of_lt ha, Nat.mod_eq_of_lt hb] at h2

lemma toList_length (tq : CwToneQueue) : tq.toList.length = tq.len := by
  simp [CwToneQueue.toList, ringList]

lemma toList_getD (tq : CwToneQueue) (i : Nat) (h : i < tq.len) :
    tq.toList.getD i default = tq.queue.getD ((tq.head + i) % tq.capacity) default := by
  unfold CwToneQueue.toList ringList
  rw [List.getD_eq_getElem]
  · simp
  · simpa using h

/-! ## Branch characterizations of enqueue and dequeue -/

lemma enqueue_store (tq : CwToneQueue) (tone : CwTone)
    (hf1 : 0 ≤ tone.frequency) (hf2 : tone.frequency ≤ 4000)
    (hlen : 0 < tone.len) (hfull : tq.len ≠ tq.capacity) :
    cw_tq_enqueue_internal tq tone =
      (CwRet.success,
       { tq with queue := tq.queue.set tq.tail tone,
                 tail := cw_tq_next_index_internal tq tq.tail,
                 len := tq.len + 1,
                 state := CwTqState.busy }) := by
  unfold cw_tq_enqueue_internal CW_FREQUENCY_MIN CW_FREQUENCY_MAX
  rw [if_neg (by omega), if_neg (by omega), if_neg (by omega), if_neg hfull]
  cases hstate : tq.state
  · simp [hstate, cw_tq_next_index_internal]
  · simp [hstate, cw_tq_next_index_internal]

lemma dequeue_on_idle (tq : CwToneQueue) (h : tq.state = CwTqState.idle) :
    cw_tq_dequeue_internal tq = (CwTqDeqRet.ndequeued_idle, none, false, tq) := by
  unfold cw_tq_dequeue_internal
  rw [h]

lemma dequeue_on_empty (tq : CwToneQueue) (h : tq.state = CwTqState.busy)
    (hlen : tq.len = 0) :
    cw_tq_dequeue_internal tq =
      (CwTqDeqRet.ndequeued_empty, none, false, { tq with state := CwTqState.idle }) := by
  unfold cw_tq_dequeue_internal
  rw [h]
  simp [hlen]

lemma dequeue_hold (tq : CwToneQueue) (h : tq.state = CwTqState.busy)
    (hlen : tq.len = 1)
    (hfor : (tq.queue.getD tq.head default).is_forever = true) :
    cw_tq_dequeue_internal tq =
      (CwTqDeqRet.dequeued, some (tq.queue.getD tq.head default), false, tq) := by
  unfold cw_tq_dequeue_internal
  rw [h]
  rw [if_pos (by omega)]
  unfold cw_tq_dequeue_sub_internal
  rw [if_pos ⟨hfor, hlen⟩]

lemma dequeue_remove (tq : CwToneQueue) (h : tq.state = CwTqState.busy)
    (hlen : tq.len ≠ 0)
    (hnot : ¬((tq.queue.getD tq.head default).is_forever = true ∧ tq.len = 1)) :
    cw_tq_dequeue_internal tq =
      (CwTqDeqRet.dequeued, some (tq.queue.getD tq.head default),
       if tq.low_water_callback.isSome = true
           ∧ tq.len > tq.low_water_mark
           ∧ tq.len - 1 ≤ tq.low_water_mark then true else false,
       { tq with head := cw_tq_next_index_internal tq tq.head, len := tq.len - 1 }) := by
  unfold cw_tq_dequeue_internal
  rw [h]
  rw [if_pos hlen]
  unfold cw_tq_dequeue_sub_internal
  rw [if_neg hnot]
  rw [h]

/-! ## Claim C1 -/

/-- Claim C1: `cw_tq_enqueue_internal` fails with EINVAL for a frequency outside
[0, 4000] or a negative length; succeeds without changing the queue for a
zero-length tone; fails with EAGAIN leaving the queue unchanged when
`len = capacity`; and otherwise stores a copy of the tone at index `tail`,
advances `tail` modulo capacity and increments `len` by one. -/
theorem claim_C1_enqueue_behavior (tq : CwToneQueue) (tone : CwTone)
    (htail : tq.tail < tq.capacity) :
    ((tone.frequency < 0 ∨ 4000 < tone.frequency ∨ tone.len < 0) →
        cw_tq_enqueue_internal tq tone = (CwRet.failure CwErrno.EINVAL, tq)) ∧
    (0 ≤ tone.frequency → tone.frequency ≤ 4000 → tone.len = 0 →
        cw_tq_enqueue_internal tq tone = (CwRet.success, tq)) ∧
    (0 ≤ tone.frequency → tone.frequency ≤ 4000 → 0 < tone.len →
        tq.len = tq.capacity →
        cw_tq_enqueue_internal tq tone = (CwRet.failure CwErrno.EAGAIN, tq)) ∧
    (0 ≤ tone.frequency → tone.frequency ≤ 4000 → 0 < tone.len →
        tq.len ≠ tq.capacity →
        (cw_tq_enqueue_internal tq tone).1 = CwRet.success ∧
        (cw_tq_enqueue_internal tq tone).2.queue = tq.queue.set tq.tail tone ∧
        (cw_tq_enqueue_internal tq tone).2.tail = (tq.tail + 1) % tq.capacity ∧
        (cw_tq_enqueue_internal tq tone).2.len = tq.len + 1 ∧
        (cw_tq_enqueue_internal tq tone).2.head = tq.head) := by
  refine ⟨?_, ?_, ?_, ?_⟩
  · intro h
    unfold cw_tq_enqueue_internal CW_FREQUENCY_MIN CW_FREQUENCY_MAX
    split_ifs with h1 h2 h3 h4 <;> first
      | rfl
      | (exfalso; omega)
  · intro hf1 hf2 hzero
    unfold cw_tq_enqueue_internal CW_FREQUENCY_MIN CW_FREQUENCY_MAX
    rw [if_neg (by omega), if_neg (by omega), if_pos hzero]
  · intro hf1 hf2 hpos hfull
    unfold cw_tq_enqueue_internal CW_FREQUENCY_MIN CW_FREQUENCY_MAX
    rw [if_neg (by omega), if_neg (by omega), if_neg (by omega), if_pos hfull]
  · intro hf1 hf2 hpos hfull
    rw [enqueue_store tq tone hf1 hf2 hpos hfull]
    refine ⟨rfl, rfl, ?_, rfl, rfl⟩
    exact next_index_eq_mod tq tq.tail htail

/-- Witness for C1 at concrete queues: the EINVAL, drop, EAGAIN and store
branches each behave as proved. -/
theorem claim_C1_enqueue_behavior_witness :
    cw_tq_enqueue_internal tqEmpty2 toneBadFreq = (CwRet.failure CwErrno.EINVAL, tqEmpty2) ∧
    cw_tq_enqueue_internal tqEmpty2 toneNegLen = (CwRet.failure CwErrno.EINVAL, tqEmpty2) ∧
    cw_tq_enqueue_internal tqEmpty2 toneZeroFirst = (CwRet.success, tqEmpty2) ∧
    cw_tq_enqueue_internal tqFull1 toneStd = (CwRet.failure CwErrno.EAGAIN, tqFull1) ∧
    (cw_tq_enqueue_internal tqEmpty2 toneStd).2.len = tqEmpty2.len + 1 := by
  refine ⟨?_, ?_, ?_, ?_, ?_⟩
  · exact (claim_C1_enqueue_behavior tqEmpty2 toneBadFreq (by decide)).1 (by decide)
  · exact (claim_C1_enqueue_behavior tqEmpty2 toneNegLen (by decide)).1 (by decide)
  · exact (claim_C1_enqueue_behavior tqEmpty2 toneZeroFirst (by decide)).2.1
      (by decide) (by decide) (by decide)
  · exact (claim_C1_enqueue_behavior tqFull1 toneStd (by decide)).2.2.1
      (by decide) (by decide) (by decide) (by decide)
  · exact ((claim_C1_enqueue_behavior tqEmpty2 toneStd (by decide)).2.2.2
      (by decide) (by decide) (by decide) (by decide)).2.2.2.1

/-! ## Claim C2 -/

/-- Claim C2: `cw_tq_dequeue_internal` returns IDLE on an idle queue leaving it
unchanged; EMPTY_NEWLY on a busy empty queue with the state transition to IDLE
as the only change; and DEQUEUED on a busy non-empty queue, returning the tone
at `head` through the out parameter. -/
theorem claim_C2_dequeue_three_way (tq : CwToneQueue) :
    (tq.state = CwTqState.idle →
        cw_tq_dequeue_internal tq = (CwTqDeqRet.ndequeued_idle, none, false, tq)) ∧
    (tq.state = CwTqState.busy → tq.len = 0 →
        cw_tq_dequeue_internal tq =
          (CwTqDeqRet.ndequeued_empty, none, false, { tq with state := CwTqState.idle })) ∧
    (tq.state = CwTqState.busy → tq.len ≠ 0 →
        (cw_tq_dequeue_internal tq).1 = CwTqDeqRet.dequeued ∧
        (cw_tq_dequeue_internal tq).2.1 = some (tq.queue.getD tq.head default)) := by
  refine ⟨dequeue_on_idle tq, dequeue_on_empty tq, ?_⟩
  intro hb hlen
  by_cases hc : (tq.queue.getD tq.head default).is_forever = true ∧ tq.len = 1
  · rw [dequeue_hold tq hb hc.2 hc.1]
    exact ⟨rfl, rfl⟩
  · rw [dequeue_remove tq hb hlen hc]
    exact ⟨rfl, rfl⟩

/-- Witness for C2: the three return values at concrete queues. -/
theorem claim_C2_dequeue_three_way_witness :
    cw_tq_dequeue_internal tqEmpty2 = (CwTqDeqRet.ndequeued_idle, none, false, tqEmpty2) ∧
    cw_tq_dequeue_internal { tqEmpty2 with state := CwTqState.busy } =
      (CwTqDeqRet.ndequeued_empty, none, false, tqEmpty2) ∧
    (cw_tq_dequeue_internal tqCallback2).1 = CwTqDeqRet.dequeued ∧
    (cw_tq_dequeue_internal tqCallback2).2.1 = some toneStd := by
  refine ⟨?_, ?_, ?_, ?_⟩
  · exact (claim_C2_dequeue_three_way tqEmpty2).1 rfl
  · exact (claim_C2_dequeue_three_way { tqEmpty2 with state := CwTqState.busy }).2.1 rfl rfl
  · exact ((claim_C2_dequeue_three_way tqCallback2).2.2 rfl (by decide)).1
  · exact ((claim_C2_dequeue_three_way tqCallback2).2.2 rfl (by decide)).2

/-! ## List getD/set helpers -/

lemma getD_set_self {α : Type} (l : List α) (n : Nat) (a d : α) (h : n < l.length) :
    (l.set n a).getD n d = a := by
  simp [List.getD_eq_getElem?_getD, List.getElem?_set_self, h]

lemma getD_set_ne {α : Type} (l : List α) (n m : Nat) (a d : α) (h : n ≠ m) :
    (l.set n a).getD m d = l.getD m d := by
  simp [List.getD_eq_getElem?_getD, List.getElem?_set_ne h]

/-! ## Claim C3 -/

/-- Claim C3: with a forever tone as the sole queue element, dequeue
re-returns it leaving the queue (head, len and all) unchanged; once a second,
non-forever tone is enqueued behind it, the next dequeue returns the forever
tone one last time while removing it (head advances, len drops back to 1),
and the dequeue after that returns the second tone. -/
theorem claim_C3_forever_tone (tq : CwToneQueue) (t2 : CwTone)
    (hinv : TqInv tq)
    (hstate : tq.state = CwTqState.busy)
    (hlen : tq.len = 1)
    (hfor : (tq.queue.getD tq.head default).is_forever = true)
    (hcap2 : 2 ≤ tq.capacity)
    (hf1 : 0 ≤ t2.frequency) (hf2 : t2.frequency ≤ 4000) (hpos : 0 < t2.len)
    (hnf : t2.is_forever = false) :
    cw_tq_dequeue_internal tq =
      (CwTqDeqRet.dequeued, some (tq.queue.getD tq.head default), false, tq) ∧
    (cw_tq_enqueue_internal tq t2).1 = CwRet.success ∧
    (cw_tq_dequeue_internal (cw_tq_enqueue_internal tq t2).2).1 = CwTqDeqRet.dequeued ∧
    (cw_tq_dequeue_internal (cw_tq_enqueue_internal tq t2).2).2.1 =
        some (tq.queue.getD tq.head default) ∧
    (cw_tq_dequeue_internal (cw_tq_enqueue_internal tq t2).2).2.2.2.len = 1 ∧
    (cw_tq_dequeue_internal (cw_tq_enqueue_internal tq t2).2).2.2.2.head =
        (tq.head + 1) % tq.capacity ∧
    (cw_tq_dequeue_internal
        (cw_tq_dequeue_internal (cw_tq_enqueue_internal tq t2).2).2.2.2).2.1 =
        some t2 := by
  have hcap : 0 < tq.capacity := hinv.cap_pos
  have htail_eq : tq.tail = (tq.head + 1) % tq.capacity := by
    have h := hinv.tail_eq
    rwa [hlen] at h
  have hne : tq.head ≠ tq.tail := by
    intro hEq
    have h0 : (tq.head + 0) % tq.capacity = tq.head := by
      rw [Nat.add_zero, Nat.mod_eq_of_lt hinv.head_lt]
    have h01 : (0 : Nat) = 1 := by
      refine add_mod_inj (n := tq.capacity) (h := tq.head) (by omega) (by omega) ?_
      calc (tq.head + 0) % tq.capacity = tq.head := h0
        _ = tq.tail := hEq
        _ = (tq.head + 1) % tq.capacity := htail_eq
    omega
  have hfull : tq.len ≠ tq.capacity := by omega
  have henq := enqueue_store tq t2 hf1 hf2 hpos hfull
  refine ⟨dequeue_hold tq hstate hlen hfor, ?_⟩
  rw [henq]
  set tq1 : CwToneQueue :=
    { tq with queue := tq.queue.set tq.tail t2,
              tail := cw_tq_next_index_internal tq tq.tail,
              len := tq.len + 1,
              state := CwTqState.busy } with htq1
  have h1len : tq1.len = tq.len + 1 := by rw [htq1]
  have h1state : tq1.state = CwTqState.busy := by rw [htq1]
  have h1head : tq1.head = tq.head := by rw [htq1]
  have h1cap : tq1.capacity = tq.capacity := by rw [htq1]
  have h1queue : tq1.queue = tq.queue.set tq.tail t2 := by rw [htq1]
  have hq1head : tq1.queue.getD tq1.head default = tq.queue.getD tq.head default := by
    rw [h1queue, h1head]
    exact getD_set_ne tq.queue tq.tail tq.head t2 default (Ne.symm hne)
  have hd1 := dequeue_remove tq1 h1state (by omega)
    (by
      rintro ⟨-, hl⟩
      omega)
  rw [hd1]
  have h1headlt : tq1.head < tq1.capacity := by
    rw [h1head, h1cap]
    exact hinv.head_lt
  have hnext1 : cw_tq_next_index_internal tq1 tq1.head = (tq.head + 1) % tq.capacity := by
    rw [next_index_eq_mod tq1 tq1.head h1headlt, h1head, h1cap]
  refine ⟨rfl, rfl, by rw [hq1head], ?_, ?_, ?_⟩
  · show tq1.len - 1 = 1
    omega
  · show cw_tq_next_index_internal tq1 tq1.head = (tq.head + 1) % tq.capacity
    exact hnext1
  set tqd : CwToneQueue :=
    { tq1 with head := cw_tq_next_index_internal tq1 tq1.head, len := tq1.len - 1 } with htqd
  have hdstate : tqd.state = CwTqState.busy := by
    rw [htqd]
  have hdlen : tqd.len = 1 := by
    rw [htqd]
    show tq1.len - 1 = 1
    omega
  have hdqueue : tqd.queue = tq1.queue := by rw [htqd]
  have hdhead_eq : tqd.head = tq.tail := by
    rw [htqd]
    show cw_tq_next_index_internal tq1 tq1.head = tq.tail
    rw [hnext1]
    exact htail_eq.symm
  have hdtone : tqd.queue.getD tqd.head default = t2 := by
    rw [hdqueue, h1queue, hdhead_eq]
    refine getD_set_self tq.queue tq.tail t2 default ?_
    rw [hinv.store_len]
    exact hinv.tail_lt
  have hd2 := dequeue_remove tqd hdstate (by omega)
    (by
      rw [hdtone, hnf]
      rintro ⟨hc, -⟩
      exact Bool.false_ne_true hc)
  rw [hd2, hdtone]

/-- Witness for C3 on a concrete capacity-2 queue holding one forever tone. -/
theorem claim_C3_forever_tone_witness :
    cw_tq_dequeue_internal tqForever1 =
      (CwTqDeqRet.dequeued, some toneForever, false, tqForever1) ∧
    (cw_tq_enqueue_internal tqForever1 toneSnd).1 = CwRet.success ∧
    (cw_tq_dequeue_internal (cw_tq_enqueue_internal tqForever1 toneSnd).2).2.1 =
      some toneForever ∧
    (cw_tq_dequeue_internal
        (cw_tq_dequeue_internal (cw_tq_enqueue_internal tqForever1 toneSnd).2).2.2.2).2.1 =
      some toneSnd := by
  have h := claim_C3_forever_tone tqForever1 toneSnd
    ⟨by decide, by decide, by decide, by decide, by decide, by decide, by decide⟩
    rfl rfl (by decide) (by decide) (by decide) (by decide) (by decide) rfl
  exact ⟨h.1, h.2.1, h.2.2.2.1, h.2.2.2.2.2.2⟩

/-! ## Claim C4 -/

/-- Claim C4: a dequeue call reports a pending low-water callback exactly when
a callback is registered, a tone was actually removed (the length decreased),
the pre-removal length was strictly above the low water mark and the
post-removal length is at or below it; a held forever tone never triggers it. -/
theorem claim_C4_low_water_condition (tq : CwToneQueue) :
    ((cw_tq_dequeue_internal tq).2.2.1 = true ↔
      (tq.low_water_callback.isSome = true ∧
       (cw_tq_dequeue_internal tq).2.2.2.len < tq.len ∧
       tq.low_water_mark < tq.len ∧
       (cw_tq_dequeue_internal tq).2.2.2.len ≤ tq.low_water_mark)) ∧
    (tq.state = CwTqState.busy → tq.len = 1 →
       (tq.queue.getD tq.head default).is_forever = true →
       (cw_tq_dequeue_internal tq).2.2.1 = false) := by
  cases hstate : tq.state
  · rw [dequeue_on_idle tq hstate]
    refine ⟨by simp, fun _ _ _ => rfl⟩
  · by_cases h0 : tq.len = 0
    · rw [dequeue_on_empty tq hstate h0]
      refine ⟨by simp, fun _ _ _ => rfl⟩
    · by_cases hc : (tq.queue.getD tq.head default).is_forever = true ∧ tq.len = 1
      · rw [dequeue_hold tq hstate hc.2 hc.1]
        refine ⟨by simp, fun _ _ _ => rfl⟩
      · rw [dequeue_remove tq hstate h0 hc]
        constructor
        · show (if tq.low_water_callback.isSome = true
                  ∧ tq.len > tq.low_water_mark
                  ∧ tq.len - 1 ≤ tq.low_water_mark then true else false) = true ↔
            (tq.low_water_callback.isSome = true ∧ tq.len - 1 < tq.len ∧
             tq.low_water_mark < tq.len ∧ tq.len - 1 ≤ tq.low_water_mark)
          split_ifs with hp
          · simp only [true_iff]
            exact ⟨hp.1, by omega, hp.2.1, hp.2.2⟩
          · simp only [Bool.false_eq_true, false_iff]
            rintro ⟨ha, -, hb, hd⟩
            exact hp ⟨ha, hb, hd⟩
        · intro _ h1 hforev
          exact absurd ⟨hforev, h1⟩ hc

/-- Witness for C4: the callback fires on the crossing dequeue of a concrete
queue, and never for a held forever tone. -/
theorem claim_C4_low_water_condition_witness :
    (cw_tq_dequeue_internal tqCallback2).2.2.1 = true ∧
    (cw_tq_dequeue_internal tqForever1).2.2.1 = false := by
  constructor
  · exact (claim_C4_low_water_condition tqCallback2).1.mpr
      ⟨by decide, by decide, by decide, by decide⟩
  · exact (claim_C4_low_water_condition tqForever1).2 rfl rfl (by decide)

/-! ## Claim C8 -/

/-- Claim C8: `cw_tq_flush_internal` sets `len = 0`, `head = tail` and state
IDLE while leaving capacity, high water mark, low water mark, the registered
low-water callback and its argument unchanged; the flush path invokes no
callback (the model's only callback-invocation site is dequeue), and no
callback is pending afterwards: the very next dequeue reports none. -/
theorem claim_C8_flush_frame (tq : CwToneQueue) :
    (cw_tq_flush_internal tq).len = 0 ∧
    (cw_tq_flush_internal tq).head = (cw_tq_flush_internal tq).tail ∧
    (cw_tq_flush_internal tq).tail = tq.tail ∧
    (cw_tq_flush_internal tq).state = CwTqState.idle ∧
    (cw_tq_flush_internal tq).queue = tq.queue ∧
    (cw_tq_flush_internal tq).capacity = tq.capacity ∧
    (cw_tq_flush_internal tq).high_water_mark = tq.high_water_mark ∧
    (cw_tq_flush_internal tq).low_water_mark = tq.low_water_mark ∧
    (cw_tq_flush_internal tq).low_water_callback = tq.low_water_callback ∧
    (cw_tq_flush_internal tq).low_water_callback_arg = tq.low_water_callback_arg ∧
    cw_tq_dequeue_internal (cw_tq_flush_internal tq) =
      (CwTqDeqRet.ndequeued_idle, none, false, cw_tq_flush_internal tq) := by
  refine ⟨rfl, rfl, rfl, rfl, rfl, rfl, rfl, rfl, rfl, rfl, ?_⟩
  exact dequeue_on_idle (cw_tq_flush_internal tq) rfl

/-! ## Bounds preservation (spec §8.1 invariants) -/

lemma next_index_lt (tq : CwToneQueue) (ind : Nat) (hcap : 0 < tq.capacity)
    (h : ind < tq.capacity) : cw_tq_next_index_internal tq ind < tq.capacity := by
  unfold cw_tq_next_index_internal
  split <;> omega

lemma scan_bounds (tq : CwToneQueue) (hcap : 0 < tq.capacity) :
    ∀ n idx j i, idx < tq.capacity → cw_tq_scan tq n idx = some (j, i) →
      j < n ∧ i < tq.capacity := by
  intro n
  induction n with
  | zero =>
    intro idx j i _ hs
    simp [cw_tq_scan] at hs
  | succ m ih =>
    intro idx j i hidx hs
    have hprev : cw_tq_prev_index_internal tq idx < tq.capacity :=
      prev_index_lt tq idx hcap hidx
    by_cases hf : (tq.queue.getD (cw_tq_prev_index_internal tq idx) default).is_first = true
    · unfold cw_tq_scan at hs
      rw [if_pos hf] at hs
      cases hs
      exact ⟨Nat.lt_succ_self m, hprev⟩
    · unfold cw_tq_scan at hs
      rw [if_neg hf] at hs
      have := ih (cw_tq_prev_index_internal tq idx) j i hprev hs
      exact ⟨Nat.lt_succ_of_lt this.1, this.2⟩

lemma bounds_enqueue (tq : CwToneQueue) (t : CwTone) (h : TqBounds tq) :
    TqBounds (cw_tq_enqueue_internal tq t).2 := by
  by_cases h1 : t.frequency < CW_FREQUENCY_MIN ∨ t.frequency > CW_FREQUENCY_MAX
  · unfold cw_tq_enqueue_internal
    rw [if_pos h1]
    exact h
  · simp only [CW_FREQUENCY_MIN, CW_FREQUENCY_MAX, not_or, not_lt] at h1
    by_cases h2 : t.len < 0
    · unfold cw_tq_enqueue_internal CW_FREQUENCY_MIN CW_FREQUENCY_MAX
      rw [if_neg (by omega), if_pos h2]
      exact h
    · by_cases h3 : t.len = 0
      · unfold cw_tq_enqueue_internal CW_FREQUENCY_MIN CW_FREQUENCY_MAX
        rw [if_neg (by omega), if_neg h2, if_pos h3]
        exact h
      · by_cases h4 : tq.len = tq.capacity
        · unfold cw_tq_enqueue_internal CW_FREQUENCY_MIN CW_FREQUENCY_MAX
          rw [if_neg (by omega), if_neg h2, if_neg h3, if_pos h4]
          exact h
        · rw [enqueue_store tq t h1.1 h1.2 (by omega) h4]
          refine ⟨h.cap_pos, ?_, h.head_lt, ?_, ?_⟩
          · show tq.len + 1 ≤ tq.capacity
            have := h.len_le
            omega
          · show cw_tq_next_index_internal tq tq.tail < tq.capacity
            exact next_index_lt tq tq.tail h.cap_pos h.tail_lt
          · intro hcon
            exact nomatch hcon

lemma bounds_dequeue (tq : CwToneQueue) (h : TqBounds tq) :
    TqBounds (cw_tq_dequeue_internal tq).2.2.2 := by
  cases hstate : tq.state
  · rw [dequeue_on_idle tq hstate]
    exact h
  · by_cases h0 : tq.len = 0
    · rw [dequeue_on_empty tq hstate h0]
      exact ⟨h.cap_pos, h.len_le, h.head_lt, h.tail_lt, fun _ => h0⟩
    · by_cases hc : (tq.queue.getD tq.head default).is_forever = true ∧ tq.len = 1
      · rw [dequeue_hold tq hstate hc.2 hc.1]
        exact h
      · rw [dequeue_remove tq hstate h0 hc]
        refine ⟨h.cap_pos, ?_, ?_, h.tail_lt, ?_⟩
        · show tq.len - 1 ≤ tq.capacity
          have := h.len_le
          omega
        · show cw_tq_next_index_internal tq tq.head < tq.capacity
          exact next_index_lt tq tq.head h.cap_pos h.head_lt
        · intro hcon
          have hcon2 : tq.state = CwTqState.idle := hcon
          rw [hstate] at hcon2
          exact nomatch hcon2

lemma bounds_flush (tq : CwToneQueue) (h : TqBounds tq) :
    TqBounds (cw_tq_flush_internal tq) :=
  ⟨h.cap_pos, Nat.zero_le _, h.tail_lt, h.tail_lt, fun _ => rfl⟩

lemma bounds_backspace (tq : CwToneQueue) (h : TqBounds tq) :
    TqBounds (cw_tq_handle_backspace_internal tq) := by
  unfold cw_tq_handle_backspace_internal
  rcases hscan : cw_tq_scan tq tq.len tq.tail with _ | ⟨j, i⟩
  · exact h
  · have hb := scan_bounds tq h.cap_pos tq.len tq.tail j i h.tail_lt hscan
    refine ⟨h.cap_pos, ?_, h.head_lt, ?_, ?_⟩
    · show j ≤ tq.capacity
      have := h.len_le
      omega
    · exact hb.2
    · intro hcon
      have hl0 := h.idle_empty hcon
      rw [hl0] at hscan
      simp [cw_tq_scan] at hscan

/-! ## Claim C5 (corrected) -/

/-- Counterexample to C5 as frozen: enqueueing a zero-length tone on a fresh
capacity-2 queue returns CW_SUCCESS yet does not increase `len` (the tone is
dropped, libcw_tq.c line 721). -/
theorem claim_C5_counterexample :
    (cw_tq_enqueue_internal tqEmpty2 toneZeroFirst).1 = CwRet.success ∧
    ¬ tqEmpty2.len < (cw_tq_enqueue_internal tqEmpty2 toneZeroFirst).2.len :=
  ⟨by decide, by decide⟩

/-- Claim C5 as amended: every operation preserves `0 ≤ len ≤ capacity`,
`head, tail ∈ [0, capacity)` and `state = IDLE → len = 0`; an enqueue that
returns success *with a tone of non-zero length* strictly increases `len`;
a dequeue that removes a non-forever tone strictly decreases `len`. -/
theorem claim_C5_amended_invariants (tq : CwToneQueue) (t : CwTone)
    (h : TqBounds tq) :
    TqBounds (cw_tq_enqueue_internal tq t).2 ∧
    TqBounds (cw_tq_dequeue_internal tq).2.2.2 ∧
    TqBounds (cw_tq_flush_internal tq) ∧
    TqBounds (cw_tq_handle_backspace_internal tq) ∧
    ((cw_tq_enqueue_internal tq t).1 = CwRet.success → t.len ≠ 0 →
        tq.len < (cw_tq_enqueue_internal tq t).2.len) ∧
    (tq.state = CwTqState.busy → tq.len ≠ 0 →
        ¬((tq.queue.getD tq.head default).is_forever = true ∧ tq.len = 1) →
        (cw_tq_dequeue_internal tq).2.2.2.len < tq.len) := by
  refine ⟨bounds_enqueue tq t h, bounds_dequeue tq h, bounds_flush tq h,
          bounds_backspace tq h, ?_, ?_⟩
  · intro hsucc hnz
    by_cases h1 : t.frequency < CW_FREQUENCY_MIN ∨ t.frequency > CW_FREQUENCY_MAX
    · unfold cw_tq_enqueue_internal at hsucc
      rw [if_pos h1] at hsucc
      exact nomatch hsucc
    · simp only [CW_FREQUENCY_MIN, CW_FREQUENCY_MAX, not_or, not_lt] at h1
      by_cases h2 : t.len < 0
      · unfold cw_tq_enqueue_internal CW_FREQUENCY_MIN CW_FREQUENCY_MAX at hsucc
        rw [if_neg (by omega), if_pos h2] at hsucc
        exact nomatch hsucc
      · by_cases h4 : tq.len = tq.capacity
        · unfold cw_tq_enqueue_internal CW_FREQUENCY_MIN CW_FREQUENCY_MAX at hsucc
          rw [if_neg (by omega), if_neg h2, if_neg hnz, if_pos h4] at hsucc
          exact nomatch hsucc
        · rw [enqueue_store tq t h1.1 h1.2 (by omega) h4]
          show tq.len < tq.len + 1
          omega
  · intro hstate h0 hc
    rw [dequeue_remove tq hstate h0 hc]
    show tq.len - 1 < tq.len
    omega

/-- Witness for the amended C5 at concrete queues. -/
theorem claim_C5_amended_invariants_witness :
    TqBounds (cw_tq_enqueue_internal tqEmpty2 toneStd).2 ∧
    TqBounds (cw_tq_flush_internal tqCallback2) ∧
    tqEmpty2.len < (cw_tq_enqueue_internal tqEmpty2 toneStd).2.len ∧
    (cw_tq_dequeue_internal tqCallback2).2.2.2.len < tqCallback2.len := by
  have h1 := claim_C5_amended_invariants tqEmpty2 toneStd
    ⟨by decide, by decide, by decide, by decide, by decide⟩
  have h2 := claim_C5_amended_invariants tqCallback2 toneStd
    ⟨by decide, by decide, by decide, by decide, by decide⟩
  exact ⟨h1.1, h2.2.2.1, h1.2.2.2.2.1 (by decide) (by decide),
         h2.2.2.2.2.2 rfl (by decide) (by decide)⟩

/-! ## Claim C9 (corrected) -/

/-- Counterexample to C9 as frozen: after a dropped zero-length tone with
`is_first = true`, the next stored tone keeps `is_first = false` — the flag is
not carried forward (the zero-length branch of `cw_tq_enqueue_internal`
returns without recording anything). -/
theorem claim_C9_counterexample :
    (cw_tq_enqueue_internal tqEmpty2 toneZeroFirst).1 = CwRet.success ∧
    (cw_tq_enqueue_internal tqEmpty2 toneZeroFirst).2 = tqEmpty2 ∧
    ¬ ((cw_tq_enqueue_internal (cw_tq_enqueue_internal tqEmpty2 toneZeroFirst).2
          toneStd).2.queue.getD tqEmpty2.tail default).is_first = true :=
  ⟨by decide, by decide, by decide⟩

/-- Claim C9 as amended: a zero-length tone is dropped with no state change
at all, so no flag is carried forward; the next stored tone keeps exactly the
`is_first` value its caller passed. -/
theorem claim_C9_amended_no_carry (tq : CwToneQueue) (t1 t2 : CwTone)
    (h1f1 : 0 ≤ t1.frequency) (h1f2 : t1.frequency ≤ 4000) (h1z : t1.len = 0)
    (hf1 : 0 ≤ t2.frequency) (hf2 : t2.frequency ≤ 4000) (hpos : 0 < t2.len)
    (hfull : tq.len ≠ tq.capacity) (htail : tq.tail < tq.queue.length) :
    cw_tq_enqueue_internal tq t1 = (CwRet.success, tq) ∧
    ((cw_tq_enqueue_internal (cw_tq_enqueue_internal tq t1).2 t2).2.queue.getD
        tq.tail default).is_first = t2.is_first := by
  have hdrop : cw_tq_enqueue_internal tq t1 = (CwRet.success, tq) := by
    unfold cw_tq_enqueue_internal CW_FREQUENCY_MIN CW_FREQUENCY_MAX
    rw [if_neg (by omega), if_neg (by omega), if_pos h1z]
  refine ⟨hdrop, ?_⟩
  rw [hdrop]
  rw [enqueue_store tq t2 hf1 hf2 hpos hfull]
  show ((tq.queue.set tq.tail t2).getD tq.tail default).is_first = t2.is_first
  rw [getD_set_self tq.queue tq.tail t2 default htail]

/-- Witness for the amended C9 at a concrete queue. -/
theorem claim_C9_amended_no_carry_witness :
    cw_tq_enqueue_internal tqEmpty2 toneZeroFirst = (CwRet.success, tqEmpty2) ∧
    ((cw_tq_enqueue_internal (cw_tq_enqueue_internal tqEmpty2 toneZeroFirst).2
        toneStd).2.queue.getD tqEmpty2.tail default).is_first = toneStd.is_first :=
  claim_C9_amended_no_carry tqEmpty2 toneZeroFirst toneStd (by decide) (by decide)
    (by decide) (by decide) (by decide) (by decide) (by decide) (by decide)

/-! ## Full representation invariant preservation -/

lemma scan_idx (tq : CwToneQueue) (hcap : 0 < tq.capacity) :
    ∀ n j i, cw_tq_scan tq n ((tq.head + n) % tq.capacity) = some (j, i) →
      j < n ∧ i = (tq.head + j) % tq.capacity := by
  intro n
  induction n with
  | zero =>
    intro j i hs
    simp [cw_tq_scan] at hs
  | succ m ih =>
    intro j i hs
    unfold cw_tq_scan at hs
    have hprev : cw_tq_prev_index_internal tq ((tq.head + (m + 1)) % tq.capacity) =
        (tq.head + m) % tq.capacity := by
      have h1 : tq.head + (m + 1) = tq.head + m + 1 := by omega
      rw [h1]
      exact prev_index_succ_mod tq (tq.head + m) hcap
    rw [hprev] at hs
    by_cases hf : (tq.queue.getD ((tq.head + m) % tq.capacity) default).is_first = true
    · rw [if_pos hf] at hs
      cases hs
      exact ⟨Nat.lt_succ_self m, rfl⟩
    · rw [if_neg hf] at hs
      have := ih j i hs
      exact ⟨Nat.lt_succ_of_lt this.1, this.2⟩

lemma inv_enqueue (tq : CwToneQueue) (t : CwTone) (h : TqInv tq) :
    TqInv (cw_tq_enqueue_internal tq t).2 := by
  by_cases h1 : t.frequency < CW_FREQUENCY_MIN ∨ t.frequency > CW_FREQUENCY_MAX
  · unfold cw_tq_enqueue_internal
    rw [if_pos h1]
    exact h
  · simp only [CW_FREQUENCY_MIN, CW_FREQUENCY_MAX, not_or, not_lt] at h1
    by_cases h2 : t.len < 0
    · unfold cw_tq_enqueue_internal CW_FREQUENCY_MIN CW_FREQUENCY_MAX
      rw [if_neg (by omega), if_pos h2]
      exact h
    · by_cases h3 : t.len = 0
      · unfold cw_tq_enqueue_internal CW_FREQUENCY_MIN CW_FREQUENCY_MAX
        rw [if_neg (by omega), if_neg h2, if_pos h3]
        exact h
      · by_cases h4 : tq.len = tq.capacity
        · unfold cw_tq_enqueue_internal CW_FREQUENCY_MIN CW_FREQUENCY_MAX
          rw [if_neg (by omega), if_neg h2, if_neg h3, if_pos h4]
          exact h
        · rw [enqueue_store tq t h1.1 h1.2 (by omega) h4]
          refine ⟨h.cap_pos, ?_, ?_, h.head_lt, ?_, ?_, ?_⟩
          · show (tq.queue.set tq.tail t).length = tq.capacity
            rw [List.length_set]
            exact h.store_len
          · show tq.len + 1 ≤ tq.capacity
            have := h.len_le
            omega
          · show cw_tq_next_index_internal tq tq.tail < tq.capacity
            exact next_index_lt tq tq.tail h.cap_pos h.tail_lt
          · show cw_tq_next_index_internal tq tq.tail =
              (tq.head + (tq.len + 1)) % tq.capacity
            rw [next_index_eq_mod tq tq.tail h.tail_lt, h.tail_eq,
                Nat.mod_add_mod, Nat.add_assoc]
          · intro hcon
            exact nomatch hcon

lemma inv_dequeue (tq : CwToneQueue) (h : TqInv tq) :
    TqInv (cw_tq_dequeue_internal tq).2.2.2 := by
  cases hstate : tq.state
  · rw [dequeue_on_idle tq hstate]
    exact h
  · by_cases h0 : tq.len = 0
    · rw [dequeue_on_empty tq hstate h0]
      exact ⟨h.cap_pos, h.store_len, h.len_le, h.head_lt, h.tail_lt, h.tail_eq,
             fun _ => h0⟩
    · by_cases hc : (tq.queue.getD tq.head default).is_forever = true ∧ tq.len = 1
      · rw [dequeue_hold tq hstate hc.2 hc.1]
        exact h
      · rw [dequeue_remove tq hstate h0 hc]
        refine ⟨h.cap_pos, h.store_len, ?_, ?_, h.tail_lt, ?_, ?_⟩
        · show tq.len - 1 ≤ tq.capacity
          have := h.len_le
          omega
        · show cw_tq_next_index_internal tq tq.head < tq.capacity
          exact next_index_lt tq tq.head h.cap_pos h.head_lt
        · show tq.tail = (cw_tq_next_index_internal tq tq.head + (tq.len - 1))
            % tq.capacity
          rw [next_index_eq_mod tq tq.head h.head_lt, Nat.mod_add_mod, h.tail_eq]
          congr 1
          omega
        · intro hcon
          have hcon2 : tq.state = CwTqState.idle := hcon
          rw [hstate] at hcon2
          exact nomatch hcon2

lemma inv_flush (tq : CwToneQueue) (h : TqInv tq) :
    TqInv (cw_tq_flush_internal tq) := by
  refine ⟨h.cap_pos, h.store_len, Nat.zero_le _, h.tail_lt, h.tail_lt, ?_, fun _ => rfl⟩
  show tq.tail = (tq.tail + 0) % tq.capacity
  rw [Nat.add_zero, Nat.mod_eq_of_lt h.tail_lt]

lemma inv_backspace (tq : CwToneQueue) (h : TqInv tq) :
    TqInv (cw_tq_handle_backspace_internal tq) := by
  unfold cw_tq_handle_backspace_internal
  rcases hscan : cw_tq_scan tq tq.len tq.tail with _ | ⟨j, i⟩
  · exact h
  · rw [h.tail_eq] at hscan
    have hji := scan_idx tq h.cap_pos tq.len j i hscan
    refine ⟨h.cap_pos, h.store_len, ?_, h.head_lt, ?_, ?_, ?_⟩
    · show j ≤ tq.capacity
      have := h.len_le
      omega
    · show i < tq.capacity
      rw [hji.2]
      exact Nat.mod_lt _ h.cap_pos
    · exact hji.2
    · intro hcon
      have hl0 := h.idle_empty hcon
      rw [hl0] at hscan
      simp [cw_tq_scan] at hscan

lemma reachable_inv (tq : CwToneQueue) (h : Reachable tq) : TqInv tq := by
  induction h with
  | init backing capacity hcap hlen =>
    refine ⟨hcap, hlen, Nat.zero_le _, hcap, hcap, ?_, fun _ => rfl⟩
    show (0 : Nat) = (0 + 0) % capacity
    simp
  | enq tq t _ ih => exact inv_enqueue tq t ih
  | deq tq _ ih => exact inv_dequeue tq ih
  | flush tq _ ih => exact inv_flush tq ih
  | backspace tq _ ih => exact inv_backspace tq ih

/-! ## Claim C10 -/

/-- Claim C10: in every state reachable from a fresh queue by enqueue,
dequeue, flush and backspace calls, the length counter agrees with the
indexes: `tail = (head + len) mod capacity`, and `len = 0` as well as
`len = capacity` each force `head = tail`. -/
theorem claim_C10_len_index_agreement (tq : CwToneQueue) (h : Reachable tq) :
    tq.tail = (tq.head + tq.len) % tq.capacity ∧
    (tq.len = 0 → tq.head = tq.tail) ∧
    (tq.len = tq.capacity → tq.head = tq.tail) := by
  have hinv : TqInv tq := reachable_inv tq h
  refine ⟨hinv.tail_eq, ?_, ?_⟩
  · intro h0
    rw [hinv.tail_eq, h0, Nat.add_zero, Nat.mod_eq_of_lt hinv.head_lt]
  · intro hcap
    rw [hinv.tail_eq, hcap, Nat.add_mod_right, Nat.mod_eq_of_lt hinv.head_lt]

/-- Witness for C10: the agreement holds after a concrete enqueue, a concrete
dequeue and a concrete flush on a fresh capacity-2 queue. -/
theorem claim_C10_len_index_agreement_witness :
    (cw_tq_enqueue_internal tqEmpty2 toneStd).2.tail =
      ((cw_tq_enqueue_internal tqEmpty2 toneStd).2.head +
        (cw_tq_enqueue_internal tqEmpty2 toneStd).2.len) %
        (cw_tq_enqueue_internal tqEmpty2 toneStd).2.capacity ∧
    tqEmpty2.head = tqEmpty2.tail := by
  constructor
  · exact (claim_C10_len_index_agreement _
      (Reachable.enq _ toneStd
        (Reachable.init [default, default] 2 (by decide) (by decide)))).1
  · exact (claim_C10_len_index_agreement tqEmpty2
      (Reachable.init [default, default] 2 (by decide) (by decide))).2.1 rfl

/-! ## ringList lemmas -/

lemma ringList_length (q : List CwTone) (h n c : Nat) :
    (ringList q h n c).length = n := by
  simp [ringList]

lemma ringList_succ_cons (q : List CwTone) (h m c : Nat) (hh : h < c) :
    ringList q h (m + 1) c = q.getD h default :: ringList q ((h + 1) % c) m c := by
  unfold ringList
  rw [List.range_succ_eq_map, List.map_cons, List.map_map]
  congr 1
  · rw [Nat.add_zero, Nat.mod_eq_of_lt hh]
  · refine List.map_congr_left ?_
    intro i hi
    simp only [Function.comp_apply]
    rw [Nat.mod_add_mod]
    congr 2
    omega

lemma ringList_snoc (q : List CwTone) (h m c : Nat) :
    ringList q h (m + 1) c = ringList q h m c ++ [q.getD ((h + m) % c) default] := by
  unfold ringList
  rw [show m + 1 = Nat.succ m from rfl, List.range_succ, List.map_append]
  simp

lemma ringList_set_out (q : List CwTone) (t : CwTone) (h m c : Nat) (hm : m < c) :
    ringList (q.set ((h + m) % c) t) h m c = ringList q h m c := by
  unfold ringList
  refine List.map_congr_left ?_
  intro i hi
  have hi' : i < m := List.mem_range.mp hi
  refine getD_set_ne q ((h + m) % c) ((h + i) % c) t default ?_
  intro hEq
  have hmi := add_mod_inj (n := c) (h := h) hm (by omega) hEq
  omega

lemma ringList_take (q : List CwTone) (h c m n : Nat) (hmn : m ≤ n) :
    (ringList q h n c).take m = ringList q h m c := by
  unfold ringList
  rw [← List.map_take, List.take_range, Nat.min_eq_left hmn]

lemma toList_enqueue (tq : CwToneQueue) (t : CwTone) (hinv : TqInv tq)
    (hf1 : 0 ≤ t.frequency) (hf2 : t.frequency ≤ 4000) (hpos : 0 < t.len)
    (h4 : tq.len ≠ tq.capacity) :
    (cw_tq_enqueue_internal tq t).2.toList = tq.toList ++ [t] := by
  have hlc : tq.len < tq.capacity := lt_of_le_of_ne hinv.len_le h4
  rw [enqueue_store tq t hf1 hf2 hpos h4]
  show ringList (tq.queue.set tq.tail t) tq.head (tq.len + 1) tq.capacity
      = ringList tq.queue tq.head tq.len tq.capacity ++ [t]
  rw [ringList_snoc, hinv.tail_eq,
      ringList_set_out tq.queue t tq.head tq.len tq.capacity hlc]
  congr 2
  refine getD_set_self tq.queue ((tq.head + tq.len) % tq.capacity) t default ?_
  rw [hinv.store_len]
  exact Nat.mod_lt _ hinv.cap_pos

lemma toList_cons_head (tq : CwToneQueue) (hinv : TqInv tq) (h0 : tq.len ≠ 0) :
    tq.toList = tq.queue.getD tq.head default ::
      ringList tq.queue ((tq.head + 1) % tq.capacity) (tq.len - 1) tq.capacity := by
  obtain ⟨m, hm⟩ : ∃ m, tq.len = m + 1 := ⟨tq.len - 1, by omega⟩
  show ringList tq.queue tq.head tq.len tq.capacity = _
  rw [hm, Nat.add_sub_cancel]
  exact ringList_succ_cons tq.queue tq.head m tq.capacity hinv.head_lt

/-! ## Claim C6 -/

/-- Claim C6: the circular tone queue refines the abstract FIFO list of the
spec through the `toList` abstraction: a storing enqueue appends at the back,
a busy dequeue returns and removes the front element exactly as `specDequeue`
does (including the re-returned sole forever tone), and the invariant is
maintained so the squares compose over every call sequence. -/
theorem claim_C6_fifo_refinement (tq : CwToneQueue) (t : CwTone) (hinv : TqInv tq) :
    (0 ≤ t.frequency → t.frequency ≤ 4000 → 0 < t.len → tq.len ≠ tq.capacity →
      (cw_tq_enqueue_internal tq t).2.toList = specEnqueue tq.toList t ∧
      TqInv (cw_tq_enqueue_internal tq t).2) ∧
    (tq.state = CwTqState.busy → tq.len ≠ 0 →
      (cw_tq_dequeue_internal tq).2.1 = some (tq.queue.getD tq.head default) ∧
      specDequeue tq.toList =
        some (tq.queue.getD tq.head default, (cw_tq_dequeue_internal tq).2.2.2.toList) ∧
      TqInv (cw_tq_dequeue_internal tq).2.2.2) ∧
    (tq.len = 0 → tq.toList = [] ∧ specDequeue tq.toList = none) := by
  refine ⟨?_, ?_, ?_⟩
  · intro hf1 hf2 hpos h4
    exact ⟨toList_enqueue tq t hinv hf1 hf2 hpos h4, inv_enqueue tq t hinv⟩
  · intro hstate h0
    have hcons := toList_cons_head tq hinv h0
    by_cases hc : (tq.queue.getD tq.head default).is_forever = true ∧ tq.len = 1
    · rw [dequeue_hold tq hstate hc.2 hc.1]
      refine ⟨rfl, ?_, hinv⟩
      have hrest : ringList tq.queue ((tq.head + 1) % tq.capacity) (tq.len - 1)
          tq.capacity = [] := by
        rw [hc.2]
        rfl
      have hspec : specDequeue tq.toList =
          some (tq.queue.getD tq.head default, tq.toList) := by
        rw [hcons, hrest]
        simp only [specDequeue]
        rw [if_pos ⟨hc.1, by trivial⟩]
      exact hspec
    · have hnext : cw_tq_next_index_internal tq tq.head = (tq.head + 1) % tq.capacity :=
        next_index_eq_mod tq tq.head hinv.head_lt
      have hd := dequeue_remove tq hstate h0 hc
      have hinv2 := inv_dequeue tq hinv
      refine ⟨by rw [hd], ?_, hinv2⟩
      rw [hd]
      show specDequeue tq.toList =
        some (tq.queue.getD tq.head default,
          ringList tq.queue (cw_tq_next_index_internal tq tq.head) (tq.len - 1)
            tq.capacity)
      rw [hnext, hcons]
      simp only [specDequeue]
      rw [if_neg ?_]
      rintro ⟨hf, hr⟩
      have hl := ringList_length tq.queue ((tq.head + 1) % tq.capacity) (tq.len - 1)
        tq.capacity
      rw [hr] at hl
      simp only [List.length_nil] at hl
      exact hc ⟨hf, by omega⟩
  · intro h0
    have hnil : tq.toList = [] := by
      unfold CwToneQueue.toList ringList
      rw [h0]
      rfl
    rw [hnil]
    exact ⟨rfl, rfl⟩

/-- Witness for C6: the refinement squares at concrete queues (a storing
enqueue, the held forever tone, and the empty queue). -/
theorem claim_C6_fifo_refinement_witness :
    (cw_tq_enqueue_internal tqEmpty2 toneStd).2.toList =
      specEnqueue tqEmpty2.toList toneStd ∧
    specDequeue tqForever1.toList =
      some (toneForever, (cw_tq_dequeue_internal tqForever1).2.2.2.toList) ∧
    specDequeue tqEmpty2.toList = none := by
  refine ⟨?_, ?_, ?_⟩
  · exact ((claim_C6_fifo_refinement tqEmpty2 toneStd
      ⟨by decide, by decide, by decide, by decide, by decide, by decide, by decide⟩).1
      (by decide) (by decide) (by decide) (by decide)).1
  · exact ((claim_C6_fifo_refinement tqForever1 toneStd
      ⟨by decide, by decide, by decide, by decide, by decide, by decide, by decide⟩).2.1
      rfl (by decide)).2.1
  · exact ((claim_C6_fifo_refinement tqEmpty2 toneStd
      ⟨by decide, by decide, by decide, by decide, by decide, by decide, by decide⟩).2.2
      (by decide)).2

/-! ## Scan characterization for backspace -/

lemma scan_none_iff (tq : CwToneQueue) (hcap : 0 < tq.capacity) :
    ∀ n, cw_tq_scan tq n ((tq.head + n) % tq.capacity) = none ↔
      ∀ i, i < n →
        (tq.queue.getD ((tq.head + i) % tq.capacity) default).is_first = false := by
  intro n
  induction n with
  | zero =>
    constructor
    · intro _ i hi
      exact absurd hi (Nat.not_lt_zero i)
    · intro _
      rfl
  | succ m ih =>
    have hprev : cw_tq_prev_index_internal tq ((tq.head + (m + 1)) % tq.capacity) =
        (tq.head + m) % tq.capacity := by
      have h1 : tq.head + (m + 1) = tq.head + m + 1 := by omega
      rw [h1]
      exact prev_index_succ_mod tq (tq.head + m) hcap
    unfold cw_tq_scan
    rw [hprev]
    by_cases hf : (tq.queue.getD ((tq.head + m) % tq.capacity) default).is_first = true
    · rw [if_pos hf]
      constructor
      · intro h
        exact nomatch h
      · intro hall
        have := hall m (Nat.lt_succ_self m)
        rw [hf] at this
        exact nomatch this
    · rw [if_neg hf]
      rw [Bool.not_eq_true] at hf
      constructor
      · intro h i hi
        rcases Nat.lt_succ_iff_lt_or_eq.mp hi with hlt | heq
        · exact (ih.mp h) i hlt
        · rw [heq]
          exact hf
      · intro hall
        exact ih.mpr (fun i hi => hall i (Nat.lt_succ_of_lt hi))

lemma scan_some_spec (tq : CwToneQueue) (hcap : 0 < tq.capacity) :
    ∀ n j idx, cw_tq_scan tq n ((tq.head + n) % tq.capacity) = some (j, idx) →
      j < n ∧ idx = (tq.head + j) % tq.capacity ∧
      (tq.queue.getD ((tq.head + j) % tq.capacity) default).is_first = true ∧
      ∀ i, j < i → i < n →
        (tq.queue.getD ((tq.head + i) % tq.capacity) default).is_first = false := by
  intro n
  induction n with
  | zero =>
    intro j idx hs
    simp [cw_tq_scan] at hs
  | succ m ih =>
    intro j idx hs
    have hprev : cw_tq_prev_index_internal tq ((tq.head + (m + 1)) % tq.capacity) =
        (tq.head + m) % tq.capacity := by
      have h1 : tq.head + (m + 1) = tq.head + m + 1 := by omega
      rw [h1]
      exact prev_index_succ_mod tq (tq.head + m) hcap
    unfold cw_tq_scan at hs
    rw [hprev] at hs
    by_cases hf : (tq.queue.getD ((tq.head + m) % tq.capacity) default).is_first = true
    · rw [if_pos hf] at hs
      cases hs
      refine ⟨Nat.lt_succ_self m, rfl, hf, ?_⟩
      intro i h1 h2
      omega
    · rw [if_neg hf] at hs
      rw [Bool.not_eq_true] at hf
      have h := ih j idx hs
      refine ⟨Nat.lt_succ_of_lt h.1, h.2.1, h.2.2.1, ?_⟩
      intro i h1 h2
      rcases Nat.lt_succ_iff_lt_or_eq.mp h2 with hlt | heq
      · exact h.2.2.2 i h1 hlt
      · rw [heq]
        exact hf

lemma last_first_total (P : Nat → Bool) :
    ∀ n, (∀ i, i < n → P i = false) ∨
      (∃ j, j < n ∧ P j = true ∧ ∀ i, j < i → i < n → P i = false) := by
  intro n
  induction n with
  | zero =>
    left
    intro i hi
    exact absurd hi (Nat.not_lt_zero i)
  | succ m ih =>
    by_cases hm : P m = true
    · right
      exact ⟨m, Nat.lt_succ_self m, hm, fun i h1 h2 => by omega⟩
    · rw [Bool.not_eq_true] at hm
      rcases ih with hall | ⟨j, hj, hPj, hafter⟩
      · left
        intro i hi
        rcases Nat.lt_succ_iff_lt_or_eq.mp hi with hlt | heq
        · exact hall i hlt
        · rw [heq]
          exact hm
      · right
        refine ⟨j, Nat.lt_succ_of_lt hj, hPj, ?_⟩
        intro i h1 h2
        rcases Nat.lt_succ_iff_lt_or_eq.mp h2 with hlt | heq
        · exact hafter i h1 hlt
        · rw [heq]
          exact hm

/-! ## Claim C7 -/

/-- Claim C7: a single backspace call either leaves the queue unchanged (no
queued tone has `is_first`), or truncates it so that the most recently
enqueued `is_first` tone and everything after it are removed while every
earlier tone is kept; the final disjunction shows the two cases are
exhaustive, so no other outcome is possible. -/
theorem claim_C7_backspace_truncation (tq : CwToneQueue) (hinv : TqInv tq) :
    ((∀ i, i < tq.len → (tq.toList.getD i default).is_first = false) →
        cw_tq_handle_backspace_internal tq = tq) ∧
    (∀ j, j < tq.len → (tq.toList.getD j default).is_first = true →
        (∀ i, j < i → i < tq.len → (tq.toList.getD i default).is_first = false) →
        (cw_tq_handle_backspace_internal tq).toList = tq.toList.take j ∧
        (cw_tq_handle_backspace_internal tq).len = j ∧
        (cw_tq_handle_backspace_internal tq).head = tq.head ∧
        (cw_tq_handle_backspace_internal tq).queue = tq.queue ∧
        (cw_tq_handle_backspace_internal tq).state = tq.state) ∧
    ((∀ i, i < tq.len → (tq.toList.getD i default).is_first = false) ∨
      (∃ j, j < tq.len ∧ (tq.toList.getD j default).is_first = true ∧
        ∀ i, j < i → i < tq.len → (tq.toList.getD i default).is_first = false)) := by
  refine ⟨?_, ?_, ?_⟩
  · intro hall
    have hall' : ∀ i, i < tq.len →
        (tq.queue.getD ((tq.head + i) % tq.capacity) default).is_first = false := by
      intro i hi
      rw [← toList_getD tq i hi]
      exact hall i hi
    have hnone : cw_tq_scan tq tq.len ((tq.head + tq.len) % tq.capacity) = none :=
      (scan_none_iff tq hinv.cap_pos tq.len).mpr hall'
    unfold cw_tq_handle_backspace_internal
    rw [hinv.tail_eq, hnone]
  · intro j hj hPj hafter
    have hPj' : (tq.queue.getD ((tq.head + j) % tq.capacity) default).is_first = true := by
      rw [← toList_getD tq j hj]
      exact hPj
    have hafter' : ∀ i, j < i → i < tq.len →
        (tq.queue.getD ((tq.head + i) % tq.capacity) default).is_first = false := by
      intro i h1 h2
      rw [← toList_getD tq i h2]
      exact hafter i h1 h2
    rcases hscan : cw_tq_scan tq tq.len ((tq.head + tq.len) % tq.capacity)
      with _ | ⟨j2, idx⟩
    · exfalso
      have := (scan_none_iff tq hinv.cap_pos tq.len).mp hscan j hj
      rw [hPj'] at this
      exact nomatch this
    · have hs := scan_some_spec tq hinv.cap_pos tq.len j2 idx hscan
      have hj2 : j2 = j := by
        by_contra hne
        rcases Nat.lt_or_ge j2 j with hlt | hge
        · have hft := hs.2.2.2 j hlt hj
          rw [hPj'] at hft
          exact nomatch hft
        · have hlt2 : j < j2 := by omega
          have hft := hafter' j2 hlt2 hs.1
          rw [hs.2.2.1] at hft
          exact nomatch hft
      subst hj2
      unfold cw_tq_handle_backspace_internal
      rw [hinv.tail_eq, hscan]
      refine ⟨?_, rfl, rfl, rfl, rfl⟩
      show ringList tq.queue tq.head j2 tq.capacity = tq.toList.take j2
      rw [show tq.toList = ringList tq.queue tq.head tq.len tq.capacity from rfl]
      exact (ringList_take tq.queue tq.head tq.capacity j2 tq.len (by omega)).symm
  · exact last_first_total (fun i => (tq.toList.getD i default).is_first) tq.len

/-- Witness for C7 on a concrete two-character queue: the backspace removes
exactly the most recent character; on a queue without `is_first` tones it is
the identity. -/
theorem claim_C7_backspace_truncation_witness :
    (cw_tq_handle_backspace_internal tqTwoChars).toList = tqTwoChars.toList.take 2 ∧
    (cw_tq_handle_backspace_internal tqTwoChars).len = 2 ∧
    cw_tq_handle_backspace_internal tqCallback2 = tqCallback2 := by
  have h1 := (claim_C7_backspace_truncation tqTwoChars
    ⟨by decide, by decide, by decide, by decide, by decide, by decide, by decide⟩).2.1
    2 (by decide) (by decide)
    (by
      intro i hi1 hi2
      have hi4 : i < 4 := hi2
      interval_cases i
      decide)
  have h2 := (claim_C7_backspace_truncation tqCallback2
    ⟨by decide, by decide, by decide, by decide, by decide, by decide, by decide⟩).1
    (by
      intro i hi
      have hi2 : i < 2 := hi
      interval_cases i <;> decide)
  exact ⟨h1.1, h1.2.1, h2⟩
